import Mathlib

/-!
Verification of the schema-registry sample repository.

The repository contains three demonstration scripts that call a schema-registry
client library (`createSchema`, `getSchema`, `getSchemaVersion`,
`checkSchemaCompatibility`, `registerSchemaVersion`, `listSchemaVersions`,
`listSchemas`, `updateSchema`, `deleteSchema`).  The registry itself (schema
store, version registrar, compatibility engine) is an external dependency whose
behaviour the specification describes as a language-agnostic design; it is
modelled here from that specification.  The demo scripts themselves (their
try/catch/finally control flow and the `reduce` grouping in
`multi-format-example.js`) are embedded from the source.
-/

namespace SchemaRegistry

/-- Modelled from the spec: the four data formats a schema may use
(spec section 3; the demos create schemas with formats json, protobuf,
avro and bytes). -/
inductive DataFormat
  | json
  | protobuf
  | avro
  | bytes
  deriving DecidableEq

/-- Modelled from the spec: the compatibility modes (spec section 4.3 and the
mode list printed by multi-format-example.js step 6). -/
inductive CompatMode
  | backward
  | forward
  | full
  | backwardAll
  | forwardAll
  | fullAll
  | none
  deriving DecidableEq

/-- Modelled from the spec: one structural incompatibility, with a kind, a
human-readable detail and the structural path of the violation
(spec section 3, CompatibilityResult). -/
structure CompatError where
  kind : String
  details : String
  propertyPath : Option String
  deriving DecidableEq

/-- Modelled from the spec: the per-format structural differ of the
Compatibility Engine (spec sections 4.3 and 9).  Its code is not part of this
repository, so the two directional checks and the error explanation are
parameters of the model; the mode-dependent decision policy on top of them is
defined below. -/
structure CompatEngine where
  backwardOk : DataFormat → List Nat → List Nat → Bool
  forwardOk : DataFormat → List Nat → List Nat → Bool
  explain : DataFormat → List Nat → List Nat → List CompatError

/-- Modelled from the spec: mutable schema metadata (spec section 3). -/
structure SchemaDetails where
  dataFormat : DataFormat
  compatibility : CompatMode
  description : String
  tags : List (String × String)
  deriving DecidableEq

/-- Modelled from the spec: one immutable schema version (spec section 3):
version number, globally unique version identifier, raw definition bytes,
format at registration time, registration timestamp. -/
structure SchemaVersion where
  versionNumber : Nat
  schemaVersionId : Nat
  schemaDefinition : List Nat
  dataFormat : DataFormat
  registeredAt : Nat
  deriving DecidableEq

/-- Modelled from the spec: the stored record of one schema: metadata,
creation timestamp and the ordered list of its versions (spec section 3). -/
structure SchemaRecord where
  details : SchemaDetails
  createdAt : Nat
  versions : List SchemaVersion
  deriving DecidableEq

/-- Modelled from the spec: the Schema Store (spec section 2): a mapping from
schema name to its record, together with the source of fresh version
identifiers and a logical clock for timestamps. -/
structure Store where
  schemas : List (String × SchemaRecord)
  nextVersionId : Nat
  clock : Nat
  deriving DecidableEq

/-- Modelled from the spec: the externally surfaced error taxonomy used by the
store operations (spec section 7). -/
inductive RegistryError
  | notFound
  | alreadyExists
  | incompatibleSchema (errors : List CompatError)
  deriving DecidableEq

/-- Result of `createSchema` and `registerSchemaVersion`: the assigned version
number and version identifier (the demos read `versionNumber` and
`schemaVersionId` from both results). -/
structure RegisterResult where
  versionNumber : Nat
  schemaVersionId : Nat
  deriving DecidableEq

/-- Result of `getSchema` and element type of `listSchemas`: the fields the
demos read (`schemaName`, `details`, `latestSchemaVersion`, `createdAt`). -/
structure GetSchemaResult where
  schemaName : String
  details : SchemaDetails
  latestSchemaVersion : Nat
  createdAt : Nat
  deriving DecidableEq

/-- Result of `checkSchemaCompatibility`: a verdict plus the structural errors
when incompatible (spec section 3). -/
structure CompatibilityResult where
  isCompatible : Bool
  errors : List CompatError
  deriving DecidableEq

/-- First schema record stored under a name, if any. -/
def lookupSchema (l : List (String × SchemaRecord)) (name : String) :
    Option SchemaRecord :=
  match l with
  | [] => none
  | (n, r) :: rest => if n = name then some r else lookupSchema rest name

/-- Modelled from the spec: `get` by name on the Schema Store. -/
def findSchema (s : Store) (name : String) : Option SchemaRecord :=
  lookupSchema s.schemas name

/-- Replace the record stored under a name (first occurrence). -/
def updateSchemaEntry (l : List (String × SchemaRecord)) (name : String)
    (sr : SchemaRecord) : List (String × SchemaRecord) :=
  match l with
  | [] => []
  | (n, r) :: rest =>
      if n = name then (n, sr) :: rest
      else (n, r) :: updateSchemaEntry rest name sr

/-- Remove every entry stored under a name. -/
def removeSchema (l : List (String × SchemaRecord)) (name : String) :
    List (String × SchemaRecord) :=
  match l with
  | [] => []
  | (n, r) :: rest =>
      if n = name then removeSchema rest name
      else (n, r) :: removeSchema rest name

/-- The version numbers of a record, in storage order. -/
def versionNumbersOf (sr : SchemaRecord) : List Nat :=
  sr.versions.map (fun v => v.versionNumber)

/-- Modelled from the spec: the latest (maximum) version number of a schema,
0 when it has no versions; `register` assigns the previous maximum plus 1
(spec section 4.2). -/
def latestVersionNumber (sr : SchemaRecord) : Nat :=
  (versionNumbersOf sr).foldl max 0

/-- The raw definition bytes of the versions of a record, in version order. -/
def priorDefs (sr : SchemaRecord) : List (List Nat) :=
  sr.versions.map (fun v => v.schemaDefinition)

/-- Modelled from the spec: the decision policy of the Compatibility Engine by
mode (spec section 4.3): backward/forward/full compare against the latest
prior version, the "-all" variants against every prior version, and mode
none is always compatible. -/
def modeCompatible (e : CompatEngine) (mode : CompatMode) (fmt : DataFormat)
    (priors : List (List Nat)) (cand : List Nat) : Bool :=
  match mode with
  | CompatMode.none => true
  | CompatMode.backward =>
      match priors.getLast? with
      | none => true
      | some p => e.backwardOk fmt p cand
  | CompatMode.forward =>
      match priors.getLast? with
      | none => true
      | some p => e.forwardOk fmt p cand
  | CompatMode.full =>
      match priors.getLast? with
      | none => true
      | some p => e.backwardOk fmt p cand && e.forwardOk fmt p cand
  | CompatMode.backwardAll => priors.all (fun p => e.backwardOk fmt p cand)
  | CompatMode.forwardAll => priors.all (fun p => e.forwardOk fmt p cand)
  | CompatMode.fullAll =>
      priors.all (fun p => e.backwardOk fmt p cand && e.forwardOk fmt p cand)

/-- The structural errors reported when a candidate is rejected: the explanation the engine gives against the latest prior version. -/
def explainFailure (e : CompatEngine) (sr : SchemaRecord) (cand : List Nat) :
    List CompatError :=
  match (priorDefs sr).getLast? with
  | none => []
  | some p => e.explain sr.details.dataFormat p cand

/-- Modelled from the spec: `create(name, metadata)` with an initial
definition: fails with AlreadyExists if the name is taken, otherwise stores
the schema with version number 1 and a fresh version identifier
(spec section 4.1; the demos pass `schemaDefinition` on creation). -/
def createSchema (s : Store) (name : String) (details : SchemaDetails)
    (schemaDefinition : List Nat) :
    Except RegistryError RegisterResult × Store :=
  match findSchema s name with
  | some _ => (Except.error RegistryError.alreadyExists, s)
  | none =>
      let v : SchemaVersion :=
        { versionNumber := 1
          schemaVersionId := s.nextVersionId
          schemaDefinition := schemaDefinition
          dataFormat := details.dataFormat
          registeredAt := s.clock }
      let sr : SchemaRecord :=
        { details := details, createdAt := s.clock, versions := [v] }
      (Except.ok { versionNumber := 1, schemaVersionId := s.nextVersionId },
       { schemas := s.schemas ++ [(name, sr)]
         nextVersionId := s.nextVersionId + 1
         clock := s.clock + 1 })

/-- Modelled from the spec: `get(name)`: fails with NotFound when the schema
is absent (spec section 4.1). -/
def getSchema (s : Store) (name : String) :
    Except RegistryError GetSchemaResult × Store :=
  match findSchema s name with
  | none => (Except.error RegistryError.notFound, s)
  | some sr =>
      (Except.ok
        { schemaName := name
          details := sr.details
          latestSchemaVersion := latestVersionNumber sr
          createdAt := sr.createdAt }, s)

/-- First version with a given version number. -/
def findVersion (vs : List SchemaVersion) (target : Nat) :
    Option SchemaVersion :=
  match vs with
  | [] => none
  | v :: rest =>
      if v.versionNumber = target then some v else findVersion rest target

/-- Modelled from the spec: retrieving one version of a schema, by version
number when one is supplied and otherwise the latest version (the demos call
`getSchemaVersion(name)` and `getSchemaVersion(name, 1)`). -/
def getSchemaVersion (s : Store) (name : String) (vn : Option Nat) :
    Except RegistryError SchemaVersion × Store :=
  match findSchema s name with
  | none => (Except.error RegistryError.notFound, s)
  | some sr =>
      let target :=
        match vn with
        | none => latestVersionNumber sr
        | some n => n
      match findVersion sr.versions target with
      | none => (Except.error RegistryError.notFound, s)
      | some v => (Except.ok v, s)

/-- Modelled from the spec: the read-only compatibility check: looks the
schema up, evaluates the decision policy of the engine under the configured
configured mode and reports the verdict with the structural errors; the store
is returned unchanged (spec section 3 invariants). -/
def checkSchemaCompatibility (e : CompatEngine) (s : Store) (cand : List Nat)
    (name : String) (fmt : DataFormat) :
    Except RegistryError CompatibilityResult × Store :=
  match findSchema s name with
  | none => (Except.error RegistryError.notFound, s)
  | some sr =>
      let ok := modeCompatible e sr.details.compatibility fmt (priorDefs sr) cand
      (Except.ok
        { isCompatible := ok
          errors := if ok then [] else explainFailure e sr cand }, s)

/-- Modelled from the spec: `register(name, definitionBytes)` of the Version
Registrar (spec section 4.2): NotFound when the schema is absent,
IncompatibleSchema when the engine rejects the candidate under the configured
mode of the schema, and on success a new version with number = previous maximum
plus 1 and a fresh identifier, appended atomically. -/
def registerSchemaVersion (e : CompatEngine) (s : Store) (name : String)
    (schemaDefinition : List Nat) :
    Except RegistryError RegisterResult × Store :=
  match findSchema s name with
  | none => (Except.error RegistryError.notFound, s)
  | some sr =>
      if modeCompatible e sr.details.compatibility sr.details.dataFormat
          (priorDefs sr) schemaDefinition then
        let vn := latestVersionNumber sr + 1
        let v : SchemaVersion :=
          { versionNumber := vn
            schemaVersionId := s.nextVersionId
            schemaDefinition := schemaDefinition
            dataFormat := sr.details.dataFormat
            registeredAt := s.clock }
        (Except.ok { versionNumber := vn, schemaVersionId := s.nextVersionId },
         { schemas := updateSchemaEntry s.schemas name
             { sr with versions := sr.versions ++ [v] }
           nextVersionId := s.nextVersionId + 1
           clock := s.clock + 1 })
      else
        (Except.error
          (RegistryError.incompatibleSchema
            (explainFailure e sr schemaDefinition)), s)

/-- Modelled from the spec: listing the versions of one schema
(spec section 4.4). -/
def listSchemaVersions (s : Store) (name : String) :
    Except RegistryError (List SchemaVersion) × Store :=
  match findSchema s name with
  | none => (Except.error RegistryError.notFound, s)
  | some sr => (Except.ok sr.versions, s)

/-- Modelled from the spec: listing all schemas (spec section 4.4); the demos
read `schemaName`, `details` and `latestSchemaVersion` of each element. -/
def listSchemas (s : Store) : List GetSchemaResult :=
  s.schemas.map (fun p =>
    { schemaName := p.1
      details := p.2.details
      latestSchemaVersion := latestVersionNumber p.2
      createdAt := p.2.createdAt })

/-- Modelled from the spec: `update(name, metadata)` replaces the mutable
metadata only (spec section 4.1). -/
def updateSchema (s : Store) (name : String) (details : SchemaDetails) :
    Except RegistryError Unit × Store :=
  match findSchema s name with
  | none => (Except.error RegistryError.notFound, s)
  | some sr =>
      (Except.ok (),
       { s with schemas :=
           updateSchemaEntry s.schemas name { sr with details := details } })

/-- Modelled from the spec: `delete(name)` removes the schema and all its
versions; NotFound when the schema is absent (spec sections 4.1 and 7). -/
def deleteSchema (s : Store) (name : String) :
    Except RegistryError Unit × Store :=
  match findSchema s name with
  | none => (Except.error RegistryError.notFound, s)
  | some _ =>
      (Except.ok (),
       { schemas := removeSchema s.schemas name
         nextVersionId := s.nextVersionId
         clock := s.clock + 1 })

/-- The version numbers currently stored under a name ([] when absent). -/
def schemaVersionNumbers (s : Store) (name : String) : List Nat :=
  match findSchema s name with
  | none => []
  | some sr => versionNumbersOf sr

/-- The latest version number currently stored under a name (0 when absent). -/
def storeLatest (s : Store) (name : String) : Nat :=
  match findSchema s name with
  | none => 0
  | some sr => latestVersionNumber sr

/-- `contiguousFrom k l` holds when `l = [k, k+1, k+2, ...]`. -/
def contiguousFrom (k : Nat) : List Nat → Bool
  | [] => true
  | n :: rest => decide (n = k) && contiguousFrom (k + 1) rest

/-- All version identifiers in the list are below the bound. -/
def idsBelow (n : Nat) : List SchemaVersion → Bool
  | [] => true
  | v :: rest => decide (v.schemaVersionId < n) && idsBelow n rest

/-- Well-formed record: version numbers are exactly 1, 2, ... with no gaps,
and every version identifier is below the fresh-identifier source of the store. -/
def wfRecord (nextId : Nat) (sr : SchemaRecord) : Bool :=
  contiguousFrom 1 (versionNumbersOf sr) && idsBelow nextId sr.versions

/-- Every stored record is well-formed for the given identifier bound. -/
def wfSchemas (nextId : Nat) : List (String × SchemaRecord) → Bool
  | [] => true
  | p :: rest => wfRecord nextId p.2 && wfSchemas nextId rest

/-- Store invariant (spec section 3): per-schema version numbers are
contiguous and strictly increasing from 1, and all issued version identifiers
are below the fresh-identifier source. -/
def wfStore (s : Store) : Bool :=
  wfSchemas s.nextVersionId s.schemas

/-- Version identifiers of a list of versions. -/
def versionIds : List SchemaVersion → List Nat
  | [] => []
  | v :: rest => v.schemaVersionId :: versionIds rest

/-- Every version identifier issued anywhere in the store. -/
def allVersionIds : List (String × SchemaRecord) → List Nat
  | [] => []
  | p :: rest => versionIds p.2.versions ++ allVersionIds rest

/-- Boolean membership in a list of naturals. -/
def natMem (t : Nat) : List Nat → Bool
  | [] => false
  | n :: rest => if n = t then true else natMem t rest

/-! ## Demo scripts

The three demo functions are embedded as the sequences of awaited client
calls they perform, wrapped in the try/catch/finally structure of the source.
Synchronous console output is elided: it cannot raise the errors the catch
blocks handle. -/

/-- One awaited call on the client, as performed by the demo scripts. -/
inductive ClientAction
  | createSchemaCall
  | getSchemaCall
  | getSchemaVersionCall
  | checkCompatibilityCall
  | registerVersionCall
  | listVersionsCall
  | listSchemasCall
  | updateSchemaCall
  | getVersionByIdCall
  | listRegisteredCall
  | disposeCall
  deriving DecidableEq

/-- Trace of a JS `try { body } catch { handler } finally { finalizer }` whose
body is a sequence of awaited client calls.  `failAt = some k` with `k` inside
the body means calls `0 .. k-1` completed and call `k` raised after being
invoked; the handler then runs, and the finalizer runs in every case. -/
def runTryCatchFinally (body handler finalizer : List ClientAction)
    (failAt : Option Nat) : List ClientAction :=
  match failAt with
  | none => body ++ finalizer
  | some k =>
      if k < body.length then body.take (k + 1) ++ handler ++ finalizer
      else body ++ finalizer

/-- Body of `simpleSchemaExample`: create, get schema, get version, check
compatibility, register the new version only if the check reported
compatible, then list versions (part_000 lines 27-91). -/
def simpleBody (compatible : Bool) : List ClientAction :=
  [ClientAction.createSchemaCall, ClientAction.getSchemaCall,
   ClientAction.getSchemaVersionCall, ClientAction.checkCompatibilityCall] ++
  (if compatible then [ClientAction.registerVersionCall] else []) ++
  [ClientAction.listVersionsCall]

/-- `simpleSchemaExample`: its body under try, a catch handler with only
console output, and a finally block that disposes the client
(part_000 lines 9-99).  `compatible` is the verdict returned by the
compatibility check of step 4. -/
def simpleSchemaExample (compatible : Bool) (failAt : Option Nat) :
    List ClientAction :=
  runTryCatchFinally (simpleBody compatible) [] [ClientAction.disposeCall]
    failAt

/-- Body of `schemaRegistryDemo`: the eleven client calls of steps 1-11; the
delete calls of step 12 are commented out in the source
(part_000 lines 110-358). -/
def demoBody : List ClientAction :=
  [ClientAction.createSchemaCall, ClientAction.getSchemaCall,
   ClientAction.getSchemaVersionCall, ClientAction.checkCompatibilityCall,
   ClientAction.registerVersionCall, ClientAction.listVersionsCall,
   ClientAction.listSchemasCall, ClientAction.updateSchemaCall,
   ClientAction.getVersionByIdCall, ClientAction.listRegisteredCall,
   ClientAction.checkCompatibilityCall]

/-- `schemaRegistryDemo`: body under try, console-only catch handler, dispose
in finally (part_000 lines 110-370). -/
def schemaRegistryDemo (failAt : Option Nat) : List ClientAction :=
  runTryCatchFinally demoBody [] [ClientAction.disposeCall] failAt

/-- Body of `multiFormatExample`: four creates, one list, three version
retrievals (multi-format-example.js lines 33-197). -/
def multiBody : List ClientAction :=
  [ClientAction.createSchemaCall, ClientAction.createSchemaCall,
   ClientAction.createSchemaCall, ClientAction.createSchemaCall,
   ClientAction.listSchemasCall, ClientAction.getSchemaVersionCall,
   ClientAction.getSchemaVersionCall, ClientAction.getSchemaVersionCall]

/-- `multiFormatExample`: body under try, console-only catch handler, dispose
in finally (multi-format-example.js lines 9-210). -/
def multiFormatExample (failAt : Option Nat) : List ClientAction :=
  runTryCatchFinally multiBody [] [ClientAction.disposeCall] failAt

/-- Number of occurrences of an action in a trace. -/
def countAction (a : ClientAction) : List ClientAction → Nat
  | [] => 0
  | b :: rest => (if b = a then 1 else 0) + countAction a rest

/-- Boolean membership of an action in a trace. -/
def actMem (a : ClientAction) : List ClientAction → Bool
  | [] => false
  | b :: rest => if b = a then true else actMem a rest

/-! ## The reduce grouping of multi-format-example.js

Step 5 of `multiFormatExample` groups the result of `listSchemas` into an
object keyed by `schema.details.dataFormat`:

  const schemasByFormat = allSchemas.reduce((acc, schema) => {
    const format = schema.details.dataFormat;
    if (!acc[format]) acc[format] = [];
    acc[format].push(schema);
    return acc;
  }, \x7b\x7d);

The accumulator object is embedded as an association list in key insertion
order: a new key is appended at the end, a push appends to the existing
group. -/

/-- One step of the reduce callback (multi-format-example.js lines 145-150). -/
def addToGroup (acc : List (DataFormat × List GetSchemaResult))
    (schema : GetSchemaResult) : List (DataFormat × List GetSchemaResult) :=
  match acc with
  | [] => [(schema.details.dataFormat, [schema])]
  | (f, group) :: rest =>
      if f = schema.details.dataFormat then (f, group ++ [schema]) :: rest
      else (f, group) :: addToGroup rest schema

/-- The whole reduce: `allSchemas.reduce(callback, {})`
(multi-format-example.js lines 145-150). -/
def schemasByFormat (schemas : List GetSchemaResult) :
    List (DataFormat × List GetSchemaResult) :=
  schemas.foldl addToGroup []

/-- The group stored under a format key ([] when the key is absent). -/
def groupFor (acc : List (DataFormat × List GetSchemaResult))
    (f : DataFormat) : List GetSchemaResult :=
  match acc with
  | [] => []
  | (g, group) :: rest => if g = f then group else groupFor rest f

/-- The format keys of the accumulator, in insertion order. -/
def groupKeys (acc : List (DataFormat × List GetSchemaResult)) :
    List DataFormat :=
  acc.map Prod.fst

/-- Boolean membership in a list of format keys. -/
def keyMem (f : DataFormat) : List DataFormat → Bool
  | [] => false
  | g :: rest => if g = f then true else keyMem f rest

/-- All format keys are pairwise distinct. -/
def distinctKeys : List DataFormat → Bool
  | [] => true
  | f :: rest => !keyMem f rest && distinctKeys rest

/-- Every schema in the group matches the format key of the group. -/
def formatsMatch (f : DataFormat) : List GetSchemaResult → Bool
  | [] => true
  | s :: rest => decide (s.details.dataFormat = f) && formatsMatch f rest

/-- Every group contains only schemas of its own format key. -/
def allGroupsMatch : List (DataFormat × List GetSchemaResult) → Bool
  | [] => true
  | p :: rest => formatsMatch p.1 p.2 && allGroupsMatch rest

/-- Total number of schemas across all groups. -/
def groupSizes : List (DataFormat × List GetSchemaResult) → Nat
  | [] => 0
  | p :: rest => p.2.length + groupSizes rest

/-- The schemas of one format, in listing order. -/
def selectFormat (f : DataFormat) : List GetSchemaResult → List GetSchemaResult
  | [] => []
  | s :: rest =>
      if s.details.dataFormat = f then s :: selectFormat f rest
      else selectFormat f rest

/-! ## Concrete fixtures used by witnesses -/

/-- A schema name used for concrete evaluations. -/
def nameA : String := "a"

/-- An engine whose structural differ accepts everything; concrete
instantiation of the engine parameter. -/
def trivialEngine : CompatEngine :=
  { backwardOk := fun _ _ _ => true
    forwardOk := fun _ _ _ => true
    explain := fun _ _ _ => [] }

/-- Sample metadata with backward compatibility. -/
def sampleDetails : SchemaDetails :=
  { dataFormat := DataFormat.json
    compatibility := CompatMode.backward
    description := "d"
    tags := [] }

/-- Sample version 1 of the sample schema. -/
def sampleVersion : SchemaVersion :=
  { versionNumber := 1
    schemaVersionId := 0
    schemaDefinition := [1]
    dataFormat := DataFormat.json
    registeredAt := 0 }

/-- Sample record holding one version. -/
def sampleRecord : SchemaRecord :=
  { details := sampleDetails, createdAt := 0, versions := [sampleVersion] }

/-- Sample store holding one schema with one version. -/
def sampleStore : Store :=
  { schemas := [(nameA, sampleRecord)], nextVersionId := 1, clock := 1 }

/-- Sample metadata with compatibility mode none. -/
def sampleDetailsNone : SchemaDetails :=
  { dataFormat := DataFormat.bytes
    compatibility := CompatMode.none
    description := "c"
    tags := [] }

/-- Sample record for the mode-none schema. -/
def sampleRecordNone : SchemaRecord :=
  { details := sampleDetailsNone
    createdAt := 0
    versions :=
      [{ versionNumber := 1
         schemaVersionId := 0
         schemaDefinition := [7]
         dataFormat := DataFormat.bytes
         registeredAt := 0 }] }

/-- Sample store holding one schema under compatibility mode none. -/
def storeNone : Store :=
  { schemas := [(nameA, sampleRecordNone)], nextVersionId := 1, clock := 1 }

/-- An empty store. -/
def emptyStore : Store := { schemas := [], nextVersionId := 0, clock := 0 }

/-- The version appended by a successful `registerSchemaVersion` call
(shorthand for the literal inside that definition). -/
def newVersion (s : Store) (sr : SchemaRecord) (b : List Nat) : SchemaVersion :=
  { versionNumber := latestVersionNumber sr + 1
    schemaVersionId := s.nextVersionId
    schemaDefinition := b
    dataFormat := sr.details.dataFormat
    registeredAt := s.clock }

/-- A record with one more version appended. -/
def appendVersion (sr : SchemaRecord) (v : SchemaVersion) : SchemaRecord :=
  { sr with versions := sr.versions ++ [v] }

/-- The store after a successful `registerSchemaVersion` call (shorthand for
the literal inside that definition). -/
def storeAfterRegister (s : Store) (name : String) (sr : SchemaRecord)
    (b : List Nat) : Store :=
  { schemas := updateSchemaEntry s.schemas name
      (appendVersion sr (newVersion s sr b))
    nextVersionId := s.nextVersionId + 1
    clock := s.clock + 1 }


/-! ## Store lemmas -/

theorem lookupSchema_update (l : List (String × SchemaRecord)) (name : String)
    (sr sr2 : SchemaRecord) (h : lookupSchema l name = some sr) :
    lookupSchema (updateSchemaEntry l name sr2) name = some sr2 := by
  induction l with
  | nil => simp [lookupSchema] at h
  | cons p rest ih =>
      obtain ⟨n, r⟩ := p
      by_cases hn : n = name
      · simp [lookupSchema, updateSchemaEntry, hn]
      · simp only [lookupSchema, updateSchemaEntry, if_neg hn] at h ⊢
        exact ih h

theorem lookupSchema_remove (l : List (String × SchemaRecord))
    (name : String) : lookupSchema (removeSchema l name) name = none := by
  induction l with
  | nil => rfl
  | cons p rest ih =>
      obtain ⟨n, r⟩ := p
      by_cases hn : n = name
      · simp [removeSchema, hn, ih]
      · simp [removeSchema, lookupSchema, hn, ih]

theorem lookupSchema_append_of_none (l l2 : List (String × SchemaRecord))
    (name : String) (h : lookupSchema l name = none) :
    lookupSchema (l ++ l2) name = lookupSchema l2 name := by
  induction l with
  | nil => rfl
  | cons p rest ih =>
      obtain ⟨n, r⟩ := p
      by_cases hn : n = name
      · simp [lookupSchema, hn] at h
      · simp only [List.cons_append, lookupSchema, if_neg hn] at h ⊢
        exact ih h

theorem wfSchemas_lookup (n : Nat) (l : List (String × SchemaRecord))
    (name : String) (sr : SchemaRecord)
    (hwf : wfSchemas n l = true) (h : lookupSchema l name = some sr) :
    wfRecord n sr = true := by
  induction l with
  | nil => simp [lookupSchema] at h
  | cons p rest ih =>
      obtain ⟨nm, r⟩ := p
      simp only [wfSchemas, Bool.and_eq_true] at hwf
      by_cases hn : nm = name
      · simp only [lookupSchema, if_pos hn, Option.some.injEq] at h
        rw [← h]; exact hwf.1
      · simp only [lookupSchema, if_neg hn] at h
        exact ih hwf.2 h

theorem idsBelow_mono (n m : Nat) (vs : List SchemaVersion)
    (h : idsBelow n vs = true) (hnm : n ≤ m) : idsBelow m vs = true := by
  induction vs with
  | nil => rfl
  | cons v rest ih =>
      simp only [idsBelow, Bool.and_eq_true, decide_eq_true_eq] at h ⊢
      exact ⟨by omega, ih h.2⟩

theorem idsBelow_append (n : Nat) (a b : List SchemaVersion)
    (ha : idsBelow n a = true) (hb : idsBelow n b = true) :
    idsBelow n (a ++ b) = true := by
  induction a with
  | nil => exact hb
  | cons v rest ih =>
      simp only [idsBelow, Bool.and_eq_true] at ha
      simp only [List.cons_append, idsBelow, Bool.and_eq_true]
      exact ⟨ha.1, ih ha.2⟩

theorem wfRecord_mono (n m : Nat) (sr : SchemaRecord)
    (h : wfRecord n sr = true) (hnm : n ≤ m) : wfRecord m sr = true := by
  simp only [wfRecord, Bool.and_eq_true] at h ⊢
  exact ⟨h.1, idsBelow_mono n m sr.versions h.2 hnm⟩

theorem wfSchemas_mono (n m : Nat) (l : List (String × SchemaRecord))
    (h : wfSchemas n l = true) (hnm : n ≤ m) : wfSchemas m l = true := by
  induction l with
  | nil => rfl
  | cons p rest ih =>
      simp only [wfSchemas, Bool.and_eq_true] at h ⊢
      exact ⟨wfRecord_mono n m p.2 h.1 hnm, ih h.2⟩

theorem wfSchemas_update (n m : Nat) (l : List (String × SchemaRecord))
    (name : String) (sr2 : SchemaRecord)
    (hwf : wfSchemas n l = true) (hnm : n ≤ m)
    (h2 : wfRecord m sr2 = true) :
    wfSchemas m (updateSchemaEntry l name sr2) = true := by
  induction l with
  | nil => rfl
  | cons p rest ih =>
      obtain ⟨nm2, r⟩ := p
      simp only [wfSchemas, Bool.and_eq_true] at hwf
      by_cases hn : nm2 = name
      · simp only [updateSchemaEntry, if_pos hn, wfSchemas, Bool.and_eq_true]
        exact ⟨h2, wfSchemas_mono n m rest hwf.2 hnm⟩
      · simp only [updateSchemaEntry, if_neg hn, wfSchemas, Bool.and_eq_true]
        exact ⟨wfRecord_mono n m r hwf.1 hnm, ih hwf.2⟩

theorem contiguousFrom_append_single (l : List Nat) (k : Nat)
    (h : contiguousFrom k l = true) :
    contiguousFrom k (l ++ [k + l.length]) = true := by
  induction l generalizing k with
  | nil => simp [contiguousFrom]
  | cons n rest ih =>
      simp only [contiguousFrom, Bool.and_eq_true, decide_eq_true_eq] at h
      obtain ⟨h1, h2⟩ := h
      simp only [List.cons_append, contiguousFrom, Bool.and_eq_true,
        decide_eq_true_eq, List.length_cons]
      refine ⟨h1, ?_⟩
      have harith : k + (rest.length + 1) = (k + 1) + rest.length := by omega
      rw [harith]
      exact ih (k + 1) h2

theorem contiguousFrom_foldl_max (l : List Nat) (k : Nat)
    (h : contiguousFrom (k + 1) l = true) :
    l.foldl max k = k + l.length := by
  induction l generalizing k with
  | nil => simp
  | cons n rest ih =>
      simp only [contiguousFrom, Bool.and_eq_true, decide_eq_true_eq] at h
      obtain ⟨h1, h2⟩ := h
      subst h1
      calc List.foldl max k ((k + 1) :: rest)
          = List.foldl max (k + 1) rest := by
            rw [List.foldl_cons, Nat.max_eq_right (Nat.le_succ k)]
        _ = (k + 1) + rest.length := ih (k + 1) h2
        _ = k + ((k + 1) :: rest).length := by
            simp only [List.length_cons]; omega

theorem latestVersionNumber_eq_length (sr : SchemaRecord)
    (h : contiguousFrom 1 (versionNumbersOf sr) = true) :
    latestVersionNumber sr = sr.versions.length := by
  unfold latestVersionNumber
  have hm := contiguousFrom_foldl_max (versionNumbersOf sr) 0 h
  simpa [versionNumbersOf] using hm

theorem contiguousFrom_natMem_ge (l : List Nat) (k t : Nat)
    (h : contiguousFrom k l = true) (ht : k + l.length ≤ t) :
    natMem t l = false := by
  induction l generalizing k with
  | nil => rfl
  | cons n rest ih =>
      simp only [contiguousFrom, Bool.and_eq_true, decide_eq_true_eq] at h
      obtain ⟨h1, h2⟩ := h
      simp only [List.length_cons] at ht
      simp only [natMem]
      rw [if_neg (show ¬(n = t) by omega)]
      exact ih (k + 1) h2 (by omega)

theorem findVersion_eq_none (vs : List SchemaVersion) (t : Nat)
    (h : natMem t (vs.map (fun v => v.versionNumber)) = false) :
    findVersion vs t = none := by
  induction vs with
  | nil => rfl
  | cons v rest ih =>
      simp only [List.map_cons, natMem] at h
      by_cases hv : v.versionNumber = t
      · rw [if_pos hv] at h; exact absurd h (by simp)
      · rw [if_neg hv] at h
        simp only [findVersion, if_neg hv]
        exact ih h

theorem findVersion_append_none (vs ws : List SchemaVersion) (t : Nat)
    (h : findVersion vs t = none) :
    findVersion (vs ++ ws) t = findVersion ws t := by
  induction vs with
  | nil => rfl
  | cons v rest ih =>
      by_cases hv : v.versionNumber = t
      · simp only [findVersion, if_pos hv] at h
        exact Option.noConfusion h
      · simp only [findVersion, if_neg hv, List.cons_append] at h ⊢
        exact ih h

theorem versionIds_natMem (n : Nat) (vs : List SchemaVersion)
    (h : idsBelow n vs = true) : natMem n (versionIds vs) = false := by
  induction vs with
  | nil => rfl
  | cons v rest ih =>
      simp only [idsBelow, Bool.and_eq_true, decide_eq_true_eq] at h
      simp only [versionIds, natMem]
      rw [if_neg (by omega)]
      exact ih h.2

theorem natMem_append (t : Nat) (a b : List Nat) :
    natMem t (a ++ b) = (natMem t a || natMem t b) := by
  induction a with
  | nil => rfl
  | cons n rest ih =>
      by_cases hn : n = t
      · simp [natMem, hn]
      · simp only [List.cons_append, natMem, if_neg hn]
        exact ih

theorem allVersionIds_natMem (n : Nat) (l : List (String × SchemaRecord))
    (h : wfSchemas n l = true) : natMem n (allVersionIds l) = false := by
  induction l with
  | nil => rfl
  | cons p rest ih =>
      simp only [wfSchemas, Bool.and_eq_true] at h
      have h1 : idsBelow n p.2.versions = true := by
        have := h.1
        simp only [wfRecord, Bool.and_eq_true] at this
        exact this.2
      simp only [allVersionIds, natMem_append, Bool.or_eq_false_iff]
      exact ⟨versionIds_natMem n p.2.versions h1, ih h.2⟩

/-! ## Demo trace lemmas -/

theorem countAction_append (a : ClientAction) (l m : List ClientAction) :
    countAction a (l ++ m) = countAction a l + countAction a m := by
  induction l with
  | nil => simp [countAction]
  | cons b rest ih =>
      simp only [List.cons_append, countAction, List.append_eq]
      rw [ih]
      omega

theorem countAction_eq_zero (a : ClientAction) (l : List ClientAction)
    (h : actMem a l = false) : countAction a l = 0 := by
  induction l with
  | nil => rfl
  | cons b rest ih =>
      simp only [actMem] at h
      by_cases hb : b = a
      · rw [if_pos hb] at h
        exact Bool.noConfusion h
      · rw [if_neg hb] at h
        simp only [countAction, if_neg hb, ih h]

theorem actMem_take (a : ClientAction) (l : List ClientAction) (n : Nat) :
    actMem a l = false → actMem a (l.take n) = false := by
  induction l generalizing n with
  | nil =>
      intro _
      simp [List.take_nil, actMem]
  | cons b rest ih =>
      intro h
      simp only [actMem] at h
      by_cases hb : b = a
      · rw [if_pos hb] at h
        exact Bool.noConfusion h
      · rw [if_neg hb] at h
        cases n with
        | zero => rfl
        | succ m =>
            simp only [List.take_succ_cons, actMem, if_neg hb]
            exact ih m h

theorem actMem_append (a : ClientAction) (l m : List ClientAction) :
    actMem a (l ++ m) = (actMem a l || actMem a m) := by
  induction l with
  | nil => rfl
  | cons b rest ih =>
      by_cases hb : b = a
      · simp [actMem, hb]
      · simp only [List.cons_append, actMem, if_neg hb]
        exact ih

theorem countAction_tcf (a : ClientAction) (body handler : List ClientAction)
    (failAt : Option Nat)
    (hb : actMem a body = false) (hh : actMem a handler = false) :
    countAction a (runTryCatchFinally body handler [a] failAt) = 1 := by
  have hone : countAction a [a] = 1 := by simp [countAction]
  cases failAt with
  | none =>
      simp only [runTryCatchFinally, countAction_append,
        countAction_eq_zero a body hb, hone]
  | some k =>
      simp only [runTryCatchFinally]
      by_cases hk : k < body.length
      · rw [if_pos hk]
        simp only [countAction_append,
          countAction_eq_zero a _ (actMem_take a body (k + 1) hb),
          countAction_eq_zero a handler hh, hone]
      · rw [if_neg hk]
        simp only [countAction_append, countAction_eq_zero a body hb, hone]

theorem actMem_tcf (a : ClientAction) (body handler finalizer : List ClientAction)
    (failAt : Option Nat) (hb : actMem a body = false)
    (hh : actMem a handler = false) (hf : actMem a finalizer = false) :
    actMem a (runTryCatchFinally body handler finalizer failAt) = false := by
  cases failAt with
  | none => simp only [runTryCatchFinally, actMem_append, hb, hf, Bool.or_self]
  | some k =>
      simp only [runTryCatchFinally]
      by_cases hk : k < body.length
      · rw [if_pos hk]
        simp only [actMem_append, actMem_take a body (k + 1) hb, hh, hf,
          Bool.or_self]
      · rw [if_neg hk]
        simp only [actMem_append, hb, hf, Bool.or_self]

/-! ## Grouping lemmas -/

theorem groupFor_addToGroup (acc : List (DataFormat × List GetSchemaResult))
    (s : GetSchemaResult) (f : DataFormat) :
    groupFor (addToGroup acc s) f =
      groupFor acc f ++ (if s.details.dataFormat = f then [s] else []) := by
  induction acc with
  | nil =>
      by_cases hf : s.details.dataFormat = f
      · simp [addToGroup, groupFor, hf]
      · simp [addToGroup, groupFor, hf]
  | cons p rest ih =>
      obtain ⟨g, group⟩ := p
      by_cases hg : g = s.details.dataFormat
      · by_cases hf : g = f
        · simp only [addToGroup, if_pos hg, groupFor, if_pos hf]
          rw [if_pos (hg ▸ hf)]
        · simp only [addToGroup, if_pos hg, groupFor, if_neg hf]
          rw [if_neg (hg ▸ hf), List.append_nil]
      · by_cases hf : g = f
        · simp only [addToGroup, if_neg hg, groupFor, if_pos hf]
          rw [if_neg (fun hc => hg (hf.trans hc.symm)), List.append_nil]
        · simp only [addToGroup, if_neg hg, groupFor, if_neg hf]
          exact ih

theorem groupFor_foldl (l : List GetSchemaResult)
    (acc : List (DataFormat × List GetSchemaResult)) (f : DataFormat) :
    groupFor (l.foldl addToGroup acc) f = groupFor acc f ++ selectFormat f l := by
  induction l generalizing acc with
  | nil => simp [selectFormat]
  | cons s rest ih =>
      simp only [List.foldl_cons, selectFormat]
      rw [ih (addToGroup acc s), groupFor_addToGroup]
      by_cases hf : s.details.dataFormat = f
      · rw [if_pos hf, if_pos hf, List.append_assoc]
        rfl
      · rw [if_neg hf, if_neg hf, List.append_nil]

theorem keyMem_append (f : DataFormat) (a b : List DataFormat) :
    keyMem f (a ++ b) = (keyMem f a || keyMem f b) := by
  induction a with
  | nil => rfl
  | cons g rest ih =>
      by_cases hg : g = f
      · simp [keyMem, hg]
      · simp only [List.cons_append, keyMem, if_neg hg]
        exact ih

theorem groupKeys_addToGroup (acc : List (DataFormat × List GetSchemaResult))
    (s : GetSchemaResult) :
    groupKeys (addToGroup acc s) =
      if keyMem s.details.dataFormat (groupKeys acc) then groupKeys acc
      else groupKeys acc ++ [s.details.dataFormat] := by
  induction acc with
  | nil => simp [addToGroup, groupKeys, keyMem]
  | cons p rest ih =>
      obtain ⟨g, group⟩ := p
      simp only [groupKeys] at ih ⊢
      by_cases hg : g = s.details.dataFormat
      · simp [addToGroup, keyMem, hg]
      · simp only [addToGroup, if_neg hg, List.map_cons]
        have hcond : keyMem s.details.dataFormat (g :: List.map Prod.fst rest) =
            keyMem s.details.dataFormat (List.map Prod.fst rest) := by
          simp only [keyMem]
          rw [if_neg hg]
        rw [hcond, ih]
        by_cases hm : keyMem s.details.dataFormat (List.map Prod.fst rest) = true
        · rw [if_pos hm, if_pos hm]
        · rw [if_neg hm, if_neg hm, List.cons_append]

theorem distinctKeys_append_single (l : List DataFormat) (x : DataFormat)
    (hd : distinctKeys l = true) (hm : keyMem x l = false) :
    distinctKeys (l ++ [x]) = true := by
  induction l with
  | nil => simp [distinctKeys, keyMem]
  | cons f rest ih =>
      simp only [keyMem] at hm
      have hfx : ¬(f = x) := by
        intro hc
        rw [if_pos hc] at hm
        exact Bool.noConfusion hm
      rw [if_neg hfx] at hm
      simp only [distinctKeys, Bool.and_eq_true, Bool.not_eq_true'] at hd
      simp only [List.cons_append, distinctKeys, Bool.and_eq_true,
        Bool.not_eq_true']
      refine ⟨?_, ih hd.2 hm⟩
      simp only [List.append_eq]
      rw [keyMem_append]
      simp only [hd.1, Bool.false_or, keyMem]
      rw [if_neg (fun hc => hfx hc.symm)]

theorem distinctKeys_addToGroup (acc : List (DataFormat × List GetSchemaResult))
    (s : GetSchemaResult) (h : distinctKeys (groupKeys acc) = true) :
    distinctKeys (groupKeys (addToGroup acc s)) = true := by
  rw [groupKeys_addToGroup]
  by_cases hm : keyMem s.details.dataFormat (groupKeys acc)
  · rw [if_pos hm]; exact h
  · rw [if_neg hm]
    exact distinctKeys_append_single (groupKeys acc) s.details.dataFormat h
      (by simpa using hm)

theorem distinctKeys_foldl (l : List GetSchemaResult)
    (acc : List (DataFormat × List GetSchemaResult))
    (h : distinctKeys (groupKeys acc) = true) :
    distinctKeys (groupKeys (l.foldl addToGroup acc)) = true := by
  induction l generalizing acc with
  | nil => exact h
  | cons s rest ih =>
      simp only [List.foldl_cons]
      exact ih (addToGroup acc s) (distinctKeys_addToGroup acc s h)

theorem formatsMatch_append (f : DataFormat) (a b : List GetSchemaResult)
    (ha : formatsMatch f a = true) (hb : formatsMatch f b = true) :
    formatsMatch f (a ++ b) = true := by
  induction a with
  | nil => exact hb
  | cons s rest ih =>
      simp only [formatsMatch, Bool.and_eq_true] at ha
      simp only [List.cons_append, formatsMatch, Bool.and_eq_true]
      exact ⟨ha.1, ih ha.2⟩

theorem allGroupsMatch_addToGroup
    (acc : List (DataFormat × List GetSchemaResult)) (s : GetSchemaResult)
    (h : allGroupsMatch acc = true) : allGroupsMatch (addToGroup acc s) = true := by
  induction acc with
  | nil =>
      simp [addToGroup, allGroupsMatch, formatsMatch]
  | cons p rest ih =>
      obtain ⟨g, group⟩ := p
      simp only [allGroupsMatch, Bool.and_eq_true] at h
      by_cases hg : g = s.details.dataFormat
      · simp only [addToGroup, if_pos hg, allGroupsMatch, Bool.and_eq_true]
        refine ⟨formatsMatch_append g group [s] h.1 ?_, h.2⟩
        simp [formatsMatch, hg]
      · simp only [addToGroup, if_neg hg, allGroupsMatch, Bool.and_eq_true]
        exact ⟨h.1, ih h.2⟩

theorem allGroupsMatch_foldl (l : List GetSchemaResult)
    (acc : List (DataFormat × List GetSchemaResult))
    (h : allGroupsMatch acc = true) :
    allGroupsMatch (l.foldl addToGroup acc) = true := by
  induction l generalizing acc with
  | nil => exact h
  | cons s rest ih =>
      simp only [List.foldl_cons]
      exact ih (addToGroup acc s) (allGroupsMatch_addToGroup acc s h)

theorem groupSizes_addToGroup (acc : List (DataFormat × List GetSchemaResult))
    (s : GetSchemaResult) : groupSizes (addToGroup acc s) = groupSizes acc + 1 := by
  induction acc with
  | nil => rfl
  | cons p rest ih =>
      obtain ⟨g, group⟩ := p
      by_cases hg : g = s.details.dataFormat
      · simp only [addToGroup, if_pos hg, groupSizes, List.length_append,
          List.length_singleton]
        omega
      · simp only [addToGroup, if_neg hg, groupSizes, ih]
        omega

theorem groupSizes_foldl (l : List GetSchemaResult)
    (acc : List (DataFormat × List GetSchemaResult)) :
    groupSizes (l.foldl addToGroup acc) = groupSizes acc + l.length := by
  induction l generalizing acc with
  | nil => rfl
  | cons s rest ih =>
      simp only [List.foldl_cons, List.length_cons]
      rw [ih (addToGroup acc s), groupSizes_addToGroup]
      omega


/-! ## Claim theorems -/

/-- C4: under compatibility mode none the engine accepts every candidate
definition, and registering against a schema whose configured mode is none
is never rejected with IncompatibleSchema: it succeeds. -/
theorem mode_none_never_rejects (e : CompatEngine) (fmt : DataFormat)
    (priors : List (List Nat)) (cand : List Nat) (s : Store) (name : String)
    (b : List Nat) (sr : SchemaRecord)
    (hfind : findSchema s name = some sr)
    (hmode : sr.details.compatibility = CompatMode.none) :
    modeCompatible e CompatMode.none fmt priors cand = true ∧
    ∃ res s2, registerSchemaVersion e s name b = (Except.ok res, s2) := by
  have hc : modeCompatible e sr.details.compatibility sr.details.dataFormat
      (priorDefs sr) b = true := by rw [hmode]; rfl
  refine ⟨rfl, ?_⟩
  refine ⟨{ versionNumber := latestVersionNumber sr + 1
            schemaVersionId := s.nextVersionId },
          { schemas := updateSchemaEntry s.schemas name
              { sr with versions := sr.versions ++
                  [{ versionNumber := latestVersionNumber sr + 1
                     schemaVersionId := s.nextVersionId
                     schemaDefinition := b
                     dataFormat := sr.details.dataFormat
                     registeredAt := s.clock }] }
            nextVersionId := s.nextVersionId + 1
            clock := s.clock + 1 }, ?_⟩
  simp only [registerSchemaVersion, hfind, hc, if_true]

/-- C4 witness: a concrete store whose schema is configured with mode none
accepts a concrete candidate. -/
theorem mode_none_never_rejects_witness :
    findSchema storeNone nameA = some sampleRecordNone ∧
    (modeCompatible trivialEngine CompatMode.none DataFormat.bytes [] [3] = true ∧
     ∃ res s2,
       registerSchemaVersion trivialEngine storeNone nameA [3] =
         (Except.ok res, s2)) :=
  ⟨rfl, mode_none_never_rejects trivialEngine DataFormat.bytes [] [3] storeNone
    nameA [3] sampleRecordNone rfl rfl⟩

/-- C5: a candidate compatible under mode full against given prior versions
is compatible under mode backward and under mode forward against the same
prior versions. -/
theorem full_implies_backward_and_forward (e : CompatEngine) (fmt : DataFormat)
    (priors : List (List Nat)) (cand : List Nat)
    (h : modeCompatible e CompatMode.full fmt priors cand = true) :
    modeCompatible e CompatMode.backward fmt priors cand = true ∧
    modeCompatible e CompatMode.forward fmt priors cand = true := by
  cases hp : priors.getLast? with
  | none => simp [modeCompatible, hp]
  | some p =>
      simp only [modeCompatible, hp, Bool.and_eq_true] at h
      simp only [modeCompatible, hp]
      exact h

/-- C5 witness: a concrete full-compatible candidate is backward and forward
compatible against the same prior version. -/
theorem full_implies_backward_and_forward_witness :
    modeCompatible trivialEngine CompatMode.full DataFormat.json [[1]] [2] = true ∧
    (modeCompatible trivialEngine CompatMode.backward DataFormat.json [[1]] [2] = true ∧
     modeCompatible trivialEngine CompatMode.forward DataFormat.json [[1]] [2] = true) :=
  ⟨rfl,
   full_implies_backward_and_forward trivialEngine DataFormat.json [[1]] [2] rfl⟩

/-- C6: compatibility checks are read-only: for every store, candidate,
schema name and format, `checkSchemaCompatibility` returns the store
unchanged. -/
theorem check_compat_read_only (e : CompatEngine) (s : Store) (cand : List Nat)
    (name : String) (fmt : DataFormat) :
    (checkSchemaCompatibility e s cand name fmt).2 = s := by
  cases hf : findSchema s name with
  | none => simp [checkSchemaCompatibility, hf]
  | some sr => simp [checkSchemaCompatibility, hf]

/-- C8: every run of each demo function disposes the client exactly once:
whatever the compatibility verdict and whether every client call succeeds
(`failAt = none`) or any one of them throws, the trace of
`simpleSchemaExample`, `schemaRegistryDemo` and `multiFormatExample` contains
exactly one `dispose` call. -/
theorem dispose_called_once (compatible : Bool) (failAt : Option Nat) :
    countAction ClientAction.disposeCall
      (simpleSchemaExample compatible failAt) = 1 ∧
    countAction ClientAction.disposeCall (schemaRegistryDemo failAt) = 1 ∧
    countAction ClientAction.disposeCall (multiFormatExample failAt) = 1 := by
  refine ⟨?_, ?_, ?_⟩
  · exact countAction_tcf ClientAction.disposeCall (simpleBody compatible) []
      failAt (by cases compatible <;> decide) (by decide)
  · exact countAction_tcf ClientAction.disposeCall demoBody [] failAt
      (by decide) (by decide)
  · exact countAction_tcf ClientAction.disposeCall multiBody [] failAt
      (by decide) (by decide)

/-- C9: in `simpleSchemaExample` the register call happens only when the
preceding compatibility check returned a compatible verdict: a trace that
contains the register call can only come from a compatible run, and an
incompatible run contains no register call at all. -/
theorem register_only_when_compatible (compatible : Bool) (failAt : Option Nat) :
    (actMem ClientAction.registerVersionCall
        (simpleSchemaExample compatible failAt) = true → compatible = true) ∧
    (compatible = false →
      actMem ClientAction.registerVersionCall
        (simpleSchemaExample compatible failAt) = false) := by
  cases compatible with
  | true => exact ⟨fun _ => rfl, fun h => Bool.noConfusion h⟩
  | false =>
      have hm : actMem ClientAction.registerVersionCall
          (simpleSchemaExample false failAt) = false :=
        actMem_tcf ClientAction.registerVersionCall (simpleBody false) []
          [ClientAction.disposeCall] failAt (by decide) (by decide) (by decide)
      exact ⟨fun h => Bool.noConfusion (hm ▸ h), fun _ => hm⟩

/-- C9 witness: the incompatible run with no failure contains no register
call. -/
theorem register_only_when_compatible_witness :
    actMem ClientAction.registerVersionCall (simpleSchemaExample false none) =
      false :=
  (register_only_when_compatible false none).2 rfl

/-- C10: the reduce grouping of `multiFormatExample` partitions the result of
`listSchemas`: the group under each format key is exactly the listed schemas
of that format in order, the keys are pairwise distinct, every group holds
only schemas of its own key, and the group sizes sum to the number of listed
schemas. -/
theorem schemasByFormat_partition (st : Store) (f : DataFormat) :
    groupFor (schemasByFormat (listSchemas st)) f =
      selectFormat f (listSchemas st) ∧
    distinctKeys (groupKeys (schemasByFormat (listSchemas st))) = true ∧
    allGroupsMatch (schemasByFormat (listSchemas st)) = true ∧
    groupSizes (schemasByFormat (listSchemas st)) = (listSchemas st).length := by
  refine ⟨?_, ?_, ?_, ?_⟩
  · have h := groupFor_foldl (listSchemas st) [] f
    simpa [schemasByFormat, groupFor] using h
  · exact distinctKeys_foldl (listSchemas st) [] rfl
  · exact allGroupsMatch_foldl (listSchemas st) [] rfl
  · have h := groupSizes_foldl (listSchemas st) []
    simpa [schemasByFormat, groupSizes] using h

/-- C2: `registerSchemaVersion` fails with NotFound when the schema is
absent, fails with IncompatibleSchema when the engine rejects the candidate
under the configured mode of the schema, succeeds with version number = previous
maximum + 1 and a fresh version identifier when the engine accepts (in
particular always when the mode is none), and on either failure leaves the
store unchanged. -/
theorem registerSchemaVersion_spec (e : CompatEngine) (s : Store)
    (name : String) (b : List Nat) (hwf : wfStore s = true) :
    (findSchema s name = none →
      registerSchemaVersion e s name b =
        (Except.error RegistryError.notFound, s)) ∧
    (∀ sr, findSchema s name = some sr →
      modeCompatible e sr.details.compatibility sr.details.dataFormat
        (priorDefs sr) b = false →
      registerSchemaVersion e s name b =
        (Except.error
          (RegistryError.incompatibleSchema (explainFailure e sr b)), s)) ∧
    (∀ sr, findSchema s name = some sr →
      modeCompatible e sr.details.compatibility sr.details.dataFormat
        (priorDefs sr) b = true →
      (registerSchemaVersion e s name b).1 =
        Except.ok { versionNumber := latestVersionNumber sr + 1
                    schemaVersionId := s.nextVersionId } ∧
      natMem s.nextVersionId (allVersionIds s.schemas) = false) ∧
    (∀ sr, findSchema s name = some sr →
      sr.details.compatibility = CompatMode.none →
      (registerSchemaVersion e s name b).1 =
        Except.ok { versionNumber := latestVersionNumber sr + 1
                    schemaVersionId := s.nextVersionId }) ∧
    (∀ err s2, registerSchemaVersion e s name b = (Except.error err, s2) →
      s2 = s) := by
  refine ⟨?_, ?_, ?_, ?_, ?_⟩
  · intro h
    simp [registerSchemaVersion, h]
  · intro sr hf hc
    simp [registerSchemaVersion, hf, hc]
  · intro sr hf hc
    refine ⟨?_, allVersionIds_natMem s.nextVersionId s.schemas hwf⟩
    simp [registerSchemaVersion, hf, hc]
  · intro sr hf hm
    have hc : modeCompatible e sr.details.compatibility sr.details.dataFormat
        (priorDefs sr) b = true := by rw [hm]; rfl
    simp [registerSchemaVersion, hf, hc]
  · intro err s2 h
    cases hf : findSchema s name with
    | none =>
        rw [(show registerSchemaVersion e s name b =
          (Except.error RegistryError.notFound, s) by
            simp [registerSchemaVersion, hf])] at h
        exact (Prod.mk.injEq _ _ _ _ ▸ h).2.symm
    | some sr =>
        cases hc : modeCompatible e sr.details.compatibility
            sr.details.dataFormat (priorDefs sr) b with
        | true =>
            have h1 : (registerSchemaVersion e s name b).1 = Except.error err :=
              congrArg Prod.fst h
            have h2 : (registerSchemaVersion e s name b).1 =
                Except.ok { versionNumber := latestVersionNumber sr + 1
                            schemaVersionId := s.nextVersionId } := by
              simp [registerSchemaVersion, hf, hc]
            rw [h1] at h2
            exact Except.noConfusion h2
        | false =>
            rw [(show registerSchemaVersion e s name b =
              (Except.error
                (RegistryError.incompatibleSchema (explainFailure e sr b)),
               s) by simp [registerSchemaVersion, hf, hc])] at h
            exact (Prod.mk.injEq _ _ _ _ ▸ h).2.symm

/-- C2 witness: registering against an absent schema in a concrete empty
store fails with NotFound and leaves the store unchanged. -/
theorem registerSchemaVersion_spec_witness :
    wfStore emptyStore = true ∧
    registerSchemaVersion trivialEngine emptyStore nameA [1] =
      (Except.error RegistryError.notFound, emptyStore) :=
  ⟨rfl,
   (registerSchemaVersion_spec trivialEngine emptyStore nameA [1] rfl).1 rfl⟩

/-- C7: after a successful delete, the schema is gone: `getSchema` fails with
NotFound, no versions remain stored under the name, and re-creating the same
name succeeds with version numbering restarting at 1. -/
theorem delete_then_recreate (s : Store) (name : String) (s2 : Store)
    (details : SchemaDetails) (b : List Nat)
    (h : deleteSchema s name = (Except.ok (), s2)) :
    (getSchema s2 name).1 = Except.error RegistryError.notFound ∧
    findSchema s2 name = none ∧
    schemaVersionNumbers s2 name = [] ∧
    (createSchema s2 name details b).1 =
      Except.ok { versionNumber := 1, schemaVersionId := s2.nextVersionId } ∧
    schemaVersionNumbers (createSchema s2 name details b).2 name = [1] := by
  cases hf : findSchema s name with
  | none =>
      rw [(show deleteSchema s name = (Except.error RegistryError.notFound, s)
        by simp [deleteSchema, hf])] at h
      exact absurd (Prod.mk.injEq _ _ _ _ ▸ h).1 (by simp)
  | some sr =>
      have hs2 : s2 = { schemas := removeSchema s.schemas name
                        nextVersionId := s.nextVersionId
                        clock := s.clock + 1 } := by
        rw [(show deleteSchema s name =
          (Except.ok (), { schemas := removeSchema s.schemas name
                           nextVersionId := s.nextVersionId
                           clock := s.clock + 1 }) by
            simp [deleteSchema, hf])] at h
        exact ((Prod.mk.injEq _ _ _ _ ▸ h).2).symm
      subst hs2
      have hgone : findSchema
          { schemas := removeSchema s.schemas name
            nextVersionId := s.nextVersionId
            clock := s.clock + 1 } name = none :=
        lookupSchema_remove s.schemas name
      refine ⟨by simp [getSchema, hgone], hgone,
        by simp [schemaVersionNumbers, hgone], ?_, ?_⟩
      · simp [createSchema, hgone]
      · simp only [createSchema, hgone]
        simp only [schemaVersionNumbers, findSchema]
        rw [lookupSchema_append_of_none _ _ _ hgone]
        simp [lookupSchema, versionNumbersOf]

/-- C7 witness: deleting the concrete sample schema succeeds, and `getSchema`
on the resulting store fails with NotFound. -/
theorem delete_then_recreate_witness :
    deleteSchema sampleStore nameA =
      (Except.ok (), (deleteSchema sampleStore nameA).2) ∧
    (getSchema (deleteSchema sampleStore nameA).2 nameA).1 =
      Except.error RegistryError.notFound :=
  ⟨rfl,
   (delete_then_recreate sampleStore nameA (deleteSchema sampleStore nameA).2
     sampleDetails [1] rfl).1⟩

/-- A successful register call, written with the post-state shorthands. -/
theorem register_success_eq (e : CompatEngine) (s : Store) (name : String)
    (b : List Nat) (sr : SchemaRecord)
    (hf : findSchema s name = some sr)
    (hc : modeCompatible e sr.details.compatibility sr.details.dataFormat
      (priorDefs sr) b = true) :
    registerSchemaVersion e s name b =
      (Except.ok { versionNumber := latestVersionNumber sr + 1
                   schemaVersionId := s.nextVersionId },
       storeAfterRegister s name sr b) := by
  simp only [registerSchemaVersion, hf, hc, if_true, storeAfterRegister,
    appendVersion, newVersion]

theorem versionNumbersOf_appendVersion (sr : SchemaRecord) (v : SchemaVersion) :
    versionNumbersOf (appendVersion sr v) =
      versionNumbersOf sr ++ [v.versionNumber] := by
  simp [appendVersion, versionNumbersOf]

theorem findSchema_storeAfterRegister (s : Store) (name : String)
    (sr : SchemaRecord) (b : List Nat) (hf : findSchema s name = some sr) :
    findSchema (storeAfterRegister s name sr b) name =
      some (appendVersion sr (newVersion s sr b)) :=
  lookupSchema_update s.schemas name sr _ hf

theorem wfRecord_after_register (s : Store) (sr : SchemaRecord) (b : List Nat)
    (hcont : contiguousFrom 1 (versionNumbersOf sr) = true)
    (hids : idsBelow s.nextVersionId sr.versions = true) :
    wfRecord (s.nextVersionId + 1) (appendVersion sr (newVersion s sr b)) =
      true := by
  simp only [wfRecord, Bool.and_eq_true]
  constructor
  · rw [versionNumbersOf_appendVersion]
    have hlat : latestVersionNumber sr = sr.versions.length :=
      latestVersionNumber_eq_length sr hcont
    have harith : (newVersion s sr b).versionNumber =
        1 + (versionNumbersOf sr).length := by
      simp only [newVersion]
      rw [hlat]
      simp only [versionNumbersOf, List.length_map]
      omega
    rw [harith]
    exact contiguousFrom_append_single (versionNumbersOf sr) 1 hcont
  · show idsBelow (s.nextVersionId + 1)
      (appendVersion sr (newVersion s sr b)).versions = true
    simp only [appendVersion]
    refine idsBelow_append _ _ _
      (idsBelow_mono _ _ _ hids (Nat.le_succ _)) ?_
    simp [idsBelow, newVersion]

/-- C1: under the store invariant, every successful register call returns
version number = previous maximum + 1, extends the version list of the schema by
exactly that number with the numbers staying contiguous from 1, and keeps the
invariant — so sequential successful calls on a fixed schema yield
1, 2, 3, ... with no gaps. -/
theorem register_version_contiguous (e : CompatEngine) (s : Store)
    (name : String) (b : List Nat) (res : RegisterResult)
    (hwf : wfStore s = true)
    (h : (registerSchemaVersion e s name b).1 = Except.ok res) :
    schemaVersionNumbers (registerSchemaVersion e s name b).2 name =
      schemaVersionNumbers s name ++ [res.versionNumber] ∧
    res.versionNumber = storeLatest s name + 1 ∧
    contiguousFrom 1
      (schemaVersionNumbers (registerSchemaVersion e s name b).2 name) = true ∧
    wfStore (registerSchemaVersion e s name b).2 = true := by
  cases hf : findSchema s name with
  | none =>
      rw [(show (registerSchemaVersion e s name b).1 =
        Except.error RegistryError.notFound by
          simp [registerSchemaVersion, hf])] at h
      exact Except.noConfusion h
  | some sr =>
      cases hc : modeCompatible e sr.details.compatibility
          sr.details.dataFormat (priorDefs sr) b with
      | false =>
          rw [(show (registerSchemaVersion e s name b).1 =
            Except.error (RegistryError.incompatibleSchema
              (explainFailure e sr b)) by
              simp [registerSchemaVersion, hf, hc])] at h
          exact Except.noConfusion h
      | true =>
          have hreg := register_success_eq e s name b sr hf hc
          rw [hreg] at h
          have hres : res = { versionNumber := latestVersionNumber sr + 1
                              schemaVersionId := s.nextVersionId } :=
            (Except.ok.inj h).symm
          subst hres
          have hwfr := wfSchemas_lookup s.nextVersionId s.schemas name sr hwf hf
          simp only [wfRecord, Bool.and_eq_true] at hwfr
          obtain ⟨hcont, hids⟩ := hwfr
          have hfind2 := findSchema_storeAfterRegister s name sr b hf
          have hnums : schemaVersionNumbers (storeAfterRegister s name sr b)
              name = versionNumbersOf sr ++ [latestVersionNumber sr + 1] := by
            simp only [schemaVersionNumbers, hfind2,
              versionNumbersOf_appendVersion, newVersion]
          refine ⟨?_, ?_, ?_, ?_⟩
          · rw [hreg]
            show schemaVersionNumbers (storeAfterRegister s name sr b) name =
              schemaVersionNumbers s name ++ [latestVersionNumber sr + 1]
            rw [hnums]
            simp only [schemaVersionNumbers, hf]
          · simp [storeLatest, hf]
          · rw [hreg]
            show contiguousFrom 1
              (schemaVersionNumbers (storeAfterRegister s name sr b) name) =
                true
            rw [hnums]
            have hlat : latestVersionNumber sr = sr.versions.length :=
              latestVersionNumber_eq_length sr hcont
            have harith : latestVersionNumber sr + 1 =
                1 + (versionNumbersOf sr).length := by
              rw [hlat]
              simp only [versionNumbersOf, List.length_map]
              omega
            rw [harith]
            exact contiguousFrom_append_single (versionNumbersOf sr) 1 hcont
          · rw [hreg]
            show wfSchemas (s.nextVersionId + 1) (updateSchemaEntry s.schemas
              name (appendVersion sr (newVersion s sr b))) = true
            exact wfSchemas_update s.nextVersionId (s.nextVersionId + 1)
              s.schemas name _ hwf (Nat.le_succ _)
              (wfRecord_after_register s sr b hcont hids)

/-- C1 witness: registering a second version of the concrete sample schema
returns version 2 = previous maximum 1 + 1 and the stored version numbers
become [1, 2]. -/
theorem register_version_contiguous_witness :
    wfStore sampleStore = true ∧
    (registerSchemaVersion trivialEngine sampleStore nameA [2]).1 =
      Except.ok { versionNumber := 2, schemaVersionId := 1 } ∧
    schemaVersionNumbers
        (registerSchemaVersion trivialEngine sampleStore nameA [2]).2 nameA =
      schemaVersionNumbers sampleStore nameA ++ [2] :=
  ⟨rfl, rfl,
   (register_version_contiguous trivialEngine sampleStore nameA [2]
     { versionNumber := 2, schemaVersionId := 1 } rfl rfl).1⟩

/-- C3: round-trip: after a successful register of definition bytes `b`
returning version number `n`, retrieving version `n` from the resulting
store returns a version whose definition bytes are exactly `b`. -/
theorem register_roundtrip (e : CompatEngine) (s : Store) (name : String)
    (b : List Nat) (res : RegisterResult)
    (hwf : wfStore s = true)
    (h : (registerSchemaVersion e s name b).1 = Except.ok res) :
    ∃ v, (getSchemaVersion (registerSchemaVersion e s name b).2 name
        (some res.versionNumber)).1 = Except.ok v ∧
      v.schemaDefinition = b ∧ v.versionNumber = res.versionNumber := by
  cases hf : findSchema s name with
  | none =>
      rw [(show (registerSchemaVersion e s name b).1 =
        Except.error RegistryError.notFound by
          simp [registerSchemaVersion, hf])] at h
      exact Except.noConfusion h
  | some sr =>
      cases hc : modeCompatible e sr.details.compatibility
          sr.details.dataFormat (priorDefs sr) b with
      | false =>
          rw [(show (registerSchemaVersion e s name b).1 =
            Except.error (RegistryError.incompatibleSchema
              (explainFailure e sr b)) by
              simp [registerSchemaVersion, hf, hc])] at h
          exact Except.noConfusion h
      | true =>
          have hreg := register_success_eq e s name b sr hf hc
          rw [hreg] at h
          have hres : res = { versionNumber := latestVersionNumber sr + 1
                              schemaVersionId := s.nextVersionId } :=
            (Except.ok.inj h).symm
          subst hres
          have hwfr := wfSchemas_lookup s.nextVersionId s.schemas name sr hwf hf
          simp only [wfRecord, Bool.and_eq_true] at hwfr
          obtain ⟨hcont, hids⟩ := hwfr
          have hfind2 := findSchema_storeAfterRegister s name sr b hf
          refine ⟨newVersion s sr b, ?_, rfl, rfl⟩
          rw [hreg]
          show (getSchemaVersion (storeAfterRegister s name sr b) name
            (some (latestVersionNumber sr + 1))).1 =
              Except.ok (newVersion s sr b)
          have hlat : latestVersionNumber sr = sr.versions.length :=
            latestVersionNumber_eq_length sr hcont
          have hnone : findVersion sr.versions (latestVersionNumber sr + 1) =
              none := by
            apply findVersion_eq_none
            apply contiguousFrom_natMem_ge _ 1 _ hcont
            simp only [versionNumbersOf, List.length_map]
            omega
          have hfindv : findVersion
              (appendVersion sr (newVersion s sr b)).versions
              (latestVersionNumber sr + 1) = some (newVersion s sr b) := by
            show findVersion (sr.versions ++ [newVersion s sr b])
              (latestVersionNumber sr + 1) = some (newVersion s sr b)
            rw [findVersion_append_none _ _ _ hnone]
            simp [findVersion, newVersion]
          simp only [getSchemaVersion, hfind2, hfindv]

/-- C3 witness: retrieving the concretely registered version 2 returns the
bytes that were registered. -/
theorem register_roundtrip_witness :
    wfStore sampleStore = true ∧
    ∃ v, (getSchemaVersion
        (registerSchemaVersion trivialEngine sampleStore nameA [2]).2 nameA
        (some 2)).1 = Except.ok v ∧
      v.schemaDefinition = [2] ∧ v.versionNumber = 2 :=
  ⟨rfl,
   register_roundtrip trivialEngine sampleStore nameA [2]
     { versionNumber := 2, schemaVersionId := 1 } rfl rfl⟩

end SchemaRegistry
